import Mathlib

/-!
Shallow embedding of the statistics core of the `cpp_utils` repository
(`src/timer/timer.hxx` and `src/stats_registry/stats_registry.hxx`),
together with theorems settling the frozen claims about it.

Modelling conventions:
* C++ `double` arithmetic is idealised as exact rational (`ℚ`) arithmetic;
  the spec itself states its numeric properties "within floating-point
  tolerance", and every algebraic identity below is proved exactly.
* The initial sentinels `std::numeric_limits<double>::max()` (for `min`)
  and `lowest()` (for `max`) are idealised as `⊤ : WithTop ℚ` and
  `⊥ : WithBot ℚ`: they are the identities of `std::min` / `std::max`
  over every recordable value, exactly as the sentinels are used.
* `std::size_t` counters are `ℕ`; casts `static_cast<double>` are `ℚ` casts.
* `std::sqrt` has no exact rational counterpart; where a square root is
  only stored and squared again (thread-exit snapshots), the registry
  model is parametrised by an arbitrary function `sq : ℚ → ℚ`, and where
  the real value matters (claim C9) `Real.sqrt` is applied in the theorem
  statement itself.
-/

-- ─────────────────────────────────────────────────────────────────────────────
-- TimerStats  (src/timer/timer.hxx, lines 194-268)
-- ─────────────────────────────────────────────────────────────────────────────

/-- Embedding of `struct TimerStats` (timer.hxx:194-200).  Field order and
names follow the C++ declaration; `min`/`max` use `WithTop ℚ`/`WithBot ℚ`
so that the C++ initial sentinels `DBL_MAX`/`lowest` become `⊤`/`⊥`. -/
@[ext]
structure TimerStats where
  count : ℕ
  total : ℚ
  min : WithTop ℚ
  max : WithBot ℚ
  mean : ℚ
  M2 : ℚ
  deriving DecidableEq

/-- A fresh `TimerStats{}` (timer.hxx:195-200 default member initialisers). -/
def TimerStats.empty : TimerStats :=
  { count := 0, total := 0, min := ⊤, max := ⊥, mean := 0, M2 := 0 }

/-- Embedding of `TimerStats::record` (timer.hxx:202-210). -/
def TimerStats.record (s : TimerStats) (v : ℚ) : TimerStats :=
  let count := s.count + 1
  let delta := v - s.mean
  let mean := s.mean + delta / (count : ℚ)
  { count := count
    total := s.total + v
    min := Min.min s.min (↑v)
    max := Max.max s.max (↑v)
    mean := mean
    M2 := s.M2 + delta * (v - mean) }

/-- Embedding of `TimerStats::variance` (timer.hxx:214). -/
def TimerStats.variance (s : TimerStats) : ℚ :=
  if s.count < 2 then 0 else s.M2 / (s.count : ℚ)

/-- Embedding of `TimerStats::sample_variance` (timer.hxx:215); the C++
`count - 1` is a `size_t` subtraction, hence `ℕ` subtraction cast to `ℚ`. -/
def TimerStats.sampleVariance (s : TimerStats) : ℚ :=
  if s.count < 2 then 0 else s.M2 / ((s.count - 1 : ℕ) : ℚ)

/-- Embedding of `TimerStats::merge` (timer.hxx:249-267), the parallel
Welford combination. -/
def TimerStats.merge (s : TimerStats) (other : TimerStats) : TimerStats :=
  if other.count = 0 then s
  else if s.count = 0 then other
  else
    let thisCount : ℚ := (s.count : ℚ)
    let otherCount : ℚ := (other.count : ℚ)
    let combined : ℚ := thisCount + otherCount
    let delta : ℚ := other.mean - s.mean
    { count := s.count + other.count
      total := s.total + other.total
      min := Min.min s.min other.min
      max := Max.max s.max other.max
      mean := s.mean + delta * (otherCount / combined)
      M2 := s.M2 + other.M2 + delta * delta * (thisCount * otherCount / combined) }

/-- Accumulator obtained by recording every sample of `l`, in order, into a
fresh `TimerStats` — "direct accumulation". -/
def TimerStats.statsOf (l : List ℚ) : TimerStats :=
  l.foldl TimerStats.record TimerStats.empty

/-- Sum of squares of a sample list (used only in closed-form statements). -/
def sumSq (l : List ℚ) : ℚ := (l.map fun x => x * x).sum

/-- Closed form of the accumulator after recording the samples of `l`:
textbook count / sum / min / max, mean `Σx/n`, and `M2 = Σx² - (Σx)²/n`
(with the `ℚ` convention `q / 0 = 0` covering the empty list). -/
def TimerStats.mkStats (l : List ℚ) : TimerStats :=
  { count := l.length
    total := l.sum
    min := l.minimum
    max := l.maximum
    mean := l.sum / (l.length : ℚ)
    M2 := sumSq l - l.sum * l.sum / (l.length : ℚ) }

theorem TimerStats.statsOf_nil : TimerStats.statsOf [] = TimerStats.empty := rfl

theorem TimerStats.statsOf_append (l₁ l₂ : List ℚ) :
    TimerStats.statsOf (l₁ ++ l₂) = l₂.foldl TimerStats.record (TimerStats.statsOf l₁) := by
  simp [TimerStats.statsOf, List.foldl_append]

theorem List.minimum_append_rat (l₁ l₂ : List ℚ) :
    (l₁ ++ l₂).minimum = Min.min l₁.minimum l₂.minimum := by
  induction l₁ with
  | nil => simp [List.minimum_nil]
  | cons a l ih =>
      simp [List.minimum_cons, ih, min_assoc]

theorem List.maximum_append_rat (l₁ l₂ : List ℚ) :
    (l₁ ++ l₂).maximum = Max.max l₁.maximum l₂.maximum := by
  induction l₁ with
  | nil => simp [List.maximum_nil]
  | cons a l ih =>
      simp [List.maximum_cons, ih, max_assoc]

theorem sumSq_append (l₁ l₂ : List ℚ) : sumSq (l₁ ++ l₂) = sumSq l₁ + sumSq l₂ := by
  simp [sumSq]

theorem sumSq_singleton (v : ℚ) : sumSq [v] = v * v := by simp [sumSq]

/-- Welford invariant: direct accumulation computes exactly the closed-form
statistics.  Proved by induction on the sample list from the right. -/
theorem TimerStats.statsOf_eq_mkStats (l : List ℚ) :
    TimerStats.statsOf l = TimerStats.mkStats l := by
  induction l using List.reverseRecOn with
  | nil =>
      simp [TimerStats.statsOf, TimerStats.mkStats, TimerStats.empty, sumSq,
        List.minimum_nil, List.maximum_nil]
  | append_singleton l v ih =>
      rw [TimerStats.statsOf_append, List.foldl_cons, List.foldl_nil, ih]
      rcases eq_or_ne l [] with rfl | hne
      · simp only [TimerStats.mkStats, TimerStats.record, List.nil_append]
        refine TimerStats.ext ?_ ?_ ?_ ?_ ?_ ?_ <;>
          simp [sumSq, List.minimum_nil, List.maximum_nil, List.minimum_cons,
            List.maximum_cons]
      · have hlen : (0 : ℚ) < (l.length : ℚ) := by
          have : 0 < l.length := List.length_pos.mpr hne
          exact_mod_cast this
        have hlen' : ((l.length : ℚ)) ≠ 0 := ne_of_gt hlen
        have hlen1 : ((l.length : ℚ)) + 1 ≠ 0 := by positivity
        simp only [TimerStats.mkStats, TimerStats.record]
        refine TimerStats.ext ?_ ?_ ?_ ?_ ?_ ?_
        · simp
        · simp
        · simp [List.minimum_append_rat, List.minimum_cons, List.minimum_nil]
        · simp [List.maximum_append_rat, List.maximum_cons, List.maximum_nil]
        · simp only [List.length_append, List.length_cons, List.length_nil,
            List.sum_append, List.sum_cons, List.sum_nil, Nat.cast_add, Nat.cast_one]
          field_simp
          ring
        · simp only [sumSq_append, sumSq_singleton, List.length_append,
            List.length_cons, List.length_nil, List.sum_append, List.sum_cons,
            List.sum_nil, Nat.cast_add, Nat.cast_one]
          field_simp
          ring

/-- Parallel-Welford merge agrees exactly with direct accumulation of the
concatenated sample lists. -/
theorem TimerStats.merge_statsOf (A B : List ℚ) :
    (TimerStats.statsOf A).merge (TimerStats.statsOf B) = TimerStats.statsOf (A ++ B) := by
  rcases eq_or_ne B [] with rfl | hB
  · rw [List.append_nil]
    rw [TimerStats.merge]
    simp [TimerStats.statsOf_eq_mkStats, TimerStats.mkStats]
  · rcases eq_or_ne A [] with rfl | hA
    · rw [List.nil_append, TimerStats.merge]
      have hBc : (TimerStats.statsOf B).count ≠ 0 := by
        rw [TimerStats.statsOf_eq_mkStats]
        simpa [TimerStats.mkStats] using hB
      simp [hBc, TimerStats.statsOf_nil, TimerStats.empty]
    · have ha : (0 : ℚ) < (A.length : ℚ) := by
        have : 0 < A.length := List.length_pos.mpr hA
        exact_mod_cast this
      have hb : (0 : ℚ) < (B.length : ℚ) := by
        have : 0 < B.length := List.length_pos.mpr hB
        exact_mod_cast this
      have ha' : ((A.length : ℚ)) ≠ 0 := ne_of_gt ha
      have hb' : ((B.length : ℚ)) ≠ 0 := ne_of_gt hb
      have hab : ((A.length : ℚ)) + (B.length : ℚ) ≠ 0 := by positivity
      have hAc : (TimerStats.statsOf A).count ≠ 0 := by
        rw [TimerStats.statsOf_eq_mkStats]
        simpa [TimerStats.mkStats] using hA
      have hBc : (TimerStats.statsOf B).count ≠ 0 := by
        rw [TimerStats.statsOf_eq_mkStats]
        simpa [TimerStats.mkStats] using hB
      rw [TimerStats.merge, if_neg hBc, if_neg hAc]
      simp only [TimerStats.statsOf_eq_mkStats, TimerStats.mkStats]
      refine TimerStats.ext ?_ ?_ ?_ ?_ ?_ ?_
      · simp
      · simp
      · simp [List.minimum_append_rat]
      · simp [List.maximum_append_rat]
      · simp only [List.length_append, List.sum_append, Nat.cast_add]
        field_simp
        ring
      · simp only [sumSq_append, List.length_append, List.sum_append, Nat.cast_add]
        field_simp
        ring

-- ─────────────────────────────────────────────────────────────────────────────
-- GaugeStats  (src/stats_registry/stats_registry.hxx, lines 35-80)
-- ─────────────────────────────────────────────────────────────────────────────

/-- Embedding of `stats_detail::GaugeStats` (stats_registry.hxx:35-41); the
same Welford accumulator as `TimerStats`, with the C++ field order of that
struct (`count, total, mean, M2, min, max`). -/
@[ext]
structure GaugeStats where
  count : ℕ
  total : ℚ
  mean : ℚ
  M2 : ℚ
  min : WithTop ℚ
  max : WithBot ℚ
  deriving DecidableEq

/-- A fresh `GaugeStats{}` (stats_registry.hxx:36-41). -/
def GaugeStats.empty : GaugeStats :=
  { count := 0, total := 0, mean := 0, M2 := 0, min := ⊤, max := ⊥ }

/-- Embedding of `GaugeStats::record` (stats_registry.hxx:43-51). -/
def GaugeStats.record (s : GaugeStats) (v : ℚ) : GaugeStats :=
  let count := s.count + 1
  let delta := v - s.mean
  let mean := s.mean + delta / (count : ℚ)
  { count := count
    total := s.total + v
    mean := mean
    M2 := s.M2 + delta * (v - mean)
    min := Min.min s.min (↑v)
    max := Max.max s.max (↑v) }

/-- Embedding of `GaugeStats::merge` (stats_registry.hxx:61-79). -/
def GaugeStats.merge (s : GaugeStats) (other : GaugeStats) : GaugeStats :=
  if other.count = 0 then s
  else if s.count = 0 then other
  else
    let thisCount : ℚ := (s.count : ℚ)
    let otherCount : ℚ := (other.count : ℚ)
    let combined : ℚ := thisCount + otherCount
    let delta : ℚ := other.mean - s.mean
    { count := s.count + other.count
      total := s.total + other.total
      mean := s.mean + delta * (otherCount / combined)
      M2 := s.M2 + other.M2 + delta * delta * (thisCount * otherCount / combined)
      min := Min.min s.min other.min
      max := Max.max s.max other.max }

/-- Direct accumulation into a fresh `GaugeStats`. -/
def GaugeStats.statsOf (l : List ℚ) : GaugeStats :=
  l.foldl GaugeStats.record GaugeStats.empty

/-- Field-for-field identification of the two (textually identical) C++
Welford accumulators. -/
def GaugeStats.toTimerStats (g : GaugeStats) : TimerStats :=
  { count := g.count, total := g.total, min := g.min, max := g.max,
    mean := g.mean, M2 := g.M2 }

theorem GaugeStats.toTimerStats_injective :
    Function.Injective GaugeStats.toTimerStats := by
  intro a b h
  cases a
  cases b
  simpa [GaugeStats.toTimerStats, TimerStats.mk.injEq, GaugeStats.mk.injEq,
    and_comm, and_assoc, and_left_comm] using h

theorem GaugeStats.toTimerStats_record (g : GaugeStats) (v : ℚ) :
    (g.record v).toTimerStats = g.toTimerStats.record v := rfl

theorem GaugeStats.toTimerStats_merge (g h : GaugeStats) :
    (g.merge h).toTimerStats = g.toTimerStats.merge h.toTimerStats := by
  simp only [GaugeStats.merge, TimerStats.merge, GaugeStats.toTimerStats]
  split_ifs <;> rfl

theorem GaugeStats.toTimerStats_statsOf (l : List ℚ) :
    (GaugeStats.statsOf l).toTimerStats = TimerStats.statsOf l := by
  rw [GaugeStats.statsOf, TimerStats.statsOf]
  induction l using List.reverseRecOn with
  | nil => rfl
  | append_singleton l v ih =>
      rw [List.foldl_append, List.foldl_append, List.foldl_cons, List.foldl_nil,
        List.foldl_cons, List.foldl_nil, ← ih, GaugeStats.toTimerStats_record]

theorem TimerStats.statsOf_append_comm (A B : List ℚ) :
    TimerStats.statsOf (A ++ B) = TimerStats.statsOf (B ++ A) := by
  rw [TimerStats.statsOf_eq_mkStats, TimerStats.statsOf_eq_mkStats]
  refine TimerStats.ext ?_ ?_ ?_ ?_ ?_ ?_
  · simp [TimerStats.mkStats, Nat.add_comm]
  · simp [TimerStats.mkStats, add_comm]
  · simp [TimerStats.mkStats, List.minimum_append_rat, min_comm]
  · simp [TimerStats.mkStats, List.maximum_append_rat, max_comm]
  · simp only [TimerStats.mkStats, List.sum_append, List.length_append, Nat.cast_add]
    ring
  · simp only [TimerStats.mkStats, sumSq_append, List.sum_append,
      List.length_append, Nat.cast_add]
    ring

-- ─────────────────────────────────────────────────────────────────────────────
-- Claim C1
-- ─────────────────────────────────────────────────────────────────────────────

/-- C1: `Stats.merge` is equivalent to direct accumulation.  For accumulators
built by `record` sequences from a fresh `Stats`, merging `B` into `A` yields
exactly the accumulator obtained by recording all of `A`'s and `B`'s samples
into one fresh accumulator (hence the same count, total, min, max, mean and
M2/stddev), regardless of which side merges into which; merging a count-0
accumulator into any accumulator leaves it unchanged, and merging a non-empty
accumulator into a count-0 one copies it exactly.  The `GaugeStats` copy of
the accumulator in stats_registry.hxx satisfies the same equation. -/
theorem claim_C1_merge_equals_direct_accumulation (A B : List ℚ) :
    (TimerStats.statsOf A).merge (TimerStats.statsOf B) = TimerStats.statsOf (A ++ B)
    ∧ (TimerStats.statsOf B).merge (TimerStats.statsOf A) = TimerStats.statsOf (A ++ B)
    ∧ (TimerStats.statsOf A).merge (TimerStats.statsOf []) = TimerStats.statsOf A
    ∧ (TimerStats.statsOf []).merge (TimerStats.statsOf A) = TimerStats.statsOf A
    ∧ (GaugeStats.statsOf A).merge (GaugeStats.statsOf B) = GaugeStats.statsOf (A ++ B) := by
  refine ⟨TimerStats.merge_statsOf A B, ?_, ?_, ?_, ?_⟩
  · rw [TimerStats.merge_statsOf B A, TimerStats.statsOf_append_comm]
  · rw [TimerStats.merge_statsOf A [], List.append_nil]
  · rw [TimerStats.merge_statsOf [] A, List.nil_append]
  · apply GaugeStats.toTimerStats_injective
    rw [GaugeStats.toTimerStats_merge, GaugeStats.toTimerStats_statsOf,
      GaugeStats.toTimerStats_statsOf, GaugeStats.toTimerStats_statsOf,
      TimerStats.merge_statsOf]

-- ─────────────────────────────────────────────────────────────────────────────
-- Claim C3
-- ─────────────────────────────────────────────────────────────────────────────

/-- Update rule written out following the spec's words for claim C3
("delta = v - mean; mean += delta/count; M2 += delta*(v-mean)", after
incrementing count, adding to the total and updating running min/max), as a
second definition to be compared against `TimerStats.record`. -/
def specRecordRule (s : TimerStats) (v : ℚ) : TimerStats :=
  let count := s.count + 1
  let delta := v - s.mean
  let mean := s.mean + delta / (count : ℚ)
  let M2 := s.M2 + delta * (v - mean)
  { count := count
    total := s.total + v
    min := Min.min s.min (↑v)
    max := Max.max s.max (↑v)
    mean := mean
    M2 := M2 }

/-- C3: Welford `record` postconditions.  For every sequence of `record`
calls on a fresh accumulator, `count` is the number of calls, `total` the sum
of the samples, `min`/`max` the true minimum/maximum, `mean = total/count`
(exactly, in `ℚ`), the per-call update is exactly the spec's single-pass
rule, and the `GaugeStats` accumulator of stats_registry.hxx computes the
identical statistics. -/
theorem claim_C3_welford_record_postconditions (l : List ℚ) :
    (TimerStats.statsOf l).count = l.length
    ∧ (TimerStats.statsOf l).total = l.sum
    ∧ (TimerStats.statsOf l).min = l.minimum
    ∧ (TimerStats.statsOf l).max = l.maximum
    ∧ (TimerStats.statsOf l).mean
        = (TimerStats.statsOf l).total / ((TimerStats.statsOf l).count : ℚ)
    ∧ (∀ (s : TimerStats) (v : ℚ), TimerStats.record s v = specRecordRule s v)
    ∧ (GaugeStats.statsOf l).toTimerStats = TimerStats.statsOf l := by
  rw [TimerStats.statsOf_eq_mkStats]
  refine ⟨rfl, rfl, rfl, rfl, rfl, fun s v => rfl, ?_⟩
  rw [GaugeStats.toTimerStats_statsOf, TimerStats.statsOf_eq_mkStats]

-- ─────────────────────────────────────────────────────────────────────────────
-- Timer  (src/timer/timer.hxx, lines 126-182)
-- ─────────────────────────────────────────────────────────────────────────────

/-- Embedding of `class Timer` (timer.hxx:177-181).  Wall-clock instants are
idealised as rationals; every operation that reads the clock takes the
current instant `now` as an explicit argument. -/
@[ext]
structure Timer where
  running : Bool
  elapsed : ℚ
  lastLap : ℚ
  startTp : ℚ
  deriving DecidableEq

/-- A default-constructed `Timer` (timer.hxx:178-181; `start_tp_` is the
epoch of the idealised clock). -/
def Timer.fresh : Timer :=
  { running := false, elapsed := 0, lastLap := 0, startTp := 0 }

/-- Embedding of `Timer::start` (timer.hxx:134-140). -/
def Timer.start (t : Timer) (now : ℚ) : Timer :=
  if t.running then t
  else { t with running := true, startTp := now }

/-- Embedding of `Timer::stop` (timer.hxx:142-149). -/
def Timer.stop (t : Timer) (now : ℚ) : Timer :=
  if ¬t.running then t
  else
    let lap := now - t.startTp
    { t with running := false, lastLap := lap, elapsed := t.elapsed + lap }

/-- Embedding of `Timer::reset` (timer.hxx:151-156). -/
def Timer.reset : Timer := Timer.fresh

/-- Embedding of `Timer::elapsed` in nanoseconds (timer.hxx:161-168). -/
def Timer.elapsedAt (t : Timer) (now : ℚ) : ℚ :=
  if t.running then t.elapsed + (now - t.startTp) else t.elapsed

-- ─────────────────────────────────────────────────────────────────────────────
-- TimerRegistry slots and the two stop paths  (timer.hxx:305-308, 365-378)
-- ─────────────────────────────────────────────────────────────────────────────

/-- Embedding of `TimerRegistry::Slot` (timer.hxx:305-308). -/
@[ext]
structure Slot where
  timer : Timer
  stats : TimerStats
  deriving DecidableEq

/-- A default-constructed slot, as found in a thread's `ct_slots` array for
a name the thread has never started. -/
def Slot.fresh : Slot := { timer := Timer.fresh, stats := TimerStats.empty }

/-- Embedding of `TimerRegistry::stop(Slot*)` (timer.hxx:365-368): stop the
slot's timer, then record `last_lap_ns()` into the slot's stats —
unconditionally. -/
def TimerRegistry.stopSlot (s : Slot) (now : ℚ) : Slot :=
  let t := s.timer.stop now
  { timer := t, stats := s.stats.record t.lastLap }

/-- Embedding of `TimerRegistry::start<Name>` restricted to one slot
(timer.hxx:353-359): starts the slot's timer. -/
def TimerRegistry.startSlot (s : Slot) (now : ℚ) : Slot :=
  { s with timer := s.timer.start now }

/-- A thread's `ct_slots` array (timer.hxx:591), as a function from slot ids
to slots. -/
def ThreadSlots : Type := ℕ → Slot

/-- The thread-local array of a thread that has never started any timer:
every slot is default-constructed. -/
def ThreadSlots.fresh : ThreadSlots := fun _ => Slot.fresh

/-- Embedding of the by-name stop `TimerRegistry::stop<Name>`
(timer.hxx:374-378): index the calling thread's `ct_slots` by the name's
slot id and apply `stop(Slot*)` to that slot.  The C++ member returns
`void` and contains no error path of any kind. -/
def TimerRegistry.stopByName (tl : ThreadSlots) (slotId : ℕ) (now : ℚ) : ThreadSlots :=
  Function.update tl slotId (TimerRegistry.stopSlot (tl slotId) now)

-- ─────────────────────────────────────────────────────────────────────────────
-- Claim C5
-- ─────────────────────────────────────────────────────────────────────────────

/-- C5 (counterexample): the registry's stop applied twice without an
intervening start is NOT a no-op.  A slot that completed one 5-unit lap
(start at 0, stop at 5) changes again when stopped a second time at 9:
`stop(Slot*)` unconditionally records `last_lap_ns()` into the slot's stats,
so the duplicate stop records the old lap again — count goes 1 → 2 and the
accumulated stats total goes 5 → 10 — refuting "calling stop twice without
an intervening start is a silent no-op that does not change accumulated
time" for the registry's stop operation. -/
theorem claim_C5_counterexample :
    TimerRegistry.stopSlot
        (TimerRegistry.stopSlot (TimerRegistry.startSlot Slot.fresh 0) 5) 9
      ≠ TimerRegistry.stopSlot (TimerRegistry.startSlot Slot.fresh 0) 5
    ∧ (TimerRegistry.stopSlot
        (TimerRegistry.stopSlot (TimerRegistry.startSlot Slot.fresh 0) 5) 9).stats.total
        = 10
    ∧ (TimerRegistry.stopSlot (TimerRegistry.startSlot Slot.fresh 0) 5).stats.total = 5 := by
  refine ⟨?_, ?_, ?_⟩
  · intro h
    have hc := congrArg (fun s : Slot => s.stats.count) h
    simp only [TimerRegistry.stopSlot, TimerRegistry.startSlot, TimerStats.record,
      Slot.fresh, TimerStats.empty] at hc
    omega
  · norm_num [TimerRegistry.stopSlot, TimerRegistry.startSlot, Slot.fresh, Timer.fresh,
      Timer.start, Timer.stop, TimerStats.record, TimerStats.empty]
  · norm_num [TimerRegistry.stopSlot, TimerRegistry.startSlot, Slot.fresh, Timer.fresh,
      Timer.start, Timer.stop, TimerStats.record, TimerStats.empty]

/-- C5 (amended): for the bare `Timer`, `start` on a running stopwatch and
`stop` on a stopped stopwatch are exact no-ops (so the elapsed clock and the
accumulated time are unchanged); the registry's `stop(Slot*)` on a slot
whose timer is not running leaves the timer unchanged but is not a no-op —
it additionally records a sample equal to the timer's `last_lap_ns()` into
the slot's stats. -/
theorem claim_C5_timer_idempotence :
    (∀ (t : Timer) (now : ℚ), t.running = true → t.start now = t)
    ∧ (∀ (t : Timer) (now : ℚ), t.running = false → t.stop now = t)
    ∧ (∀ (s : Slot) (now : ℚ), s.timer.running = false →
        TimerRegistry.stopSlot s now
          = { timer := s.timer, stats := s.stats.record s.timer.lastLap }) := by
  refine ⟨?_, ?_, ?_⟩
  · intro t now h
    simp [Timer.start, h]
  · intro t now h
    simp [Timer.stop, h]
  · intro s now h
    have hstop : s.timer.stop now = s.timer := by simp [Timer.stop, h]
    simp [TimerRegistry.stopSlot, hstop]

/-- C5 (witness): the three parts of `claim_C5_timer_idempotence` applied to
concrete timers and slots. -/
theorem claim_C5_witness :
    ((Timer.fresh.start 0).running = true
      ∧ (Timer.fresh.start 0).start 5 = Timer.fresh.start 0)
    ∧ (Timer.fresh.running = false ∧ Timer.fresh.stop 5 = Timer.fresh)
    ∧ (Slot.fresh.timer.running = false
      ∧ TimerRegistry.stopSlot Slot.fresh 5
          = { timer := Slot.fresh.timer,
              stats := Slot.fresh.stats.record Slot.fresh.timer.lastLap }) :=
  ⟨⟨by decide, claim_C5_timer_idempotence.1 (Timer.fresh.start 0) 5 (by decide)⟩,
   ⟨by decide, claim_C5_timer_idempotence.2.1 Timer.fresh 5 (by decide)⟩,
   ⟨by decide, claim_C5_timer_idempotence.2.2 Slot.fresh 5 (by decide)⟩⟩

-- ─────────────────────────────────────────────────────────────────────────────
-- Claim C4
-- ─────────────────────────────────────────────────────────────────────────────

/-- C4 (counterexample): stopping by name on a thread that never called
start does not raise any error.  `TimerRegistry::stop<Name>` returns `void`
and timer.hxx contains no throw path, so its embedding is a total function
on the thread's slot array; applied to a fresh thread-local array it
completes normally, leaves the (never-started) timer untouched and silently
records a spurious 0-length sample into the slot's stats — where the claim
requires a misuse error to reach the caller (and a second, distinguishable
error for never-registered names, which likewise does not exist). -/
theorem claim_C4_counterexample :
    (TimerRegistry.stopByName ThreadSlots.fresh 0 0) 0
      = { timer := Timer.fresh, stats := TimerStats.empty.record 0 }
    ∧ ((TimerRegistry.stopByName ThreadSlots.fresh 0 0) 0).stats.count = 1 := by
  constructor
  · show Function.update ThreadSlots.fresh 0
        (TimerRegistry.stopSlot (ThreadSlots.fresh 0) 0) 0 = _
    rw [Function.update_same]
    rfl
  · show (Function.update ThreadSlots.fresh 0
        (TimerRegistry.stopSlot (ThreadSlots.fresh 0) 0) 0).stats.count = 1
    rw [Function.update_same]
    rfl

/-- C4 (amended): stopping a timer by name on a thread whose timer for that
name is not running (in particular a thread that never called `start` for
it) is accepted without any error: the timer is left unchanged and a sample
equal to the slot's `last_lap_ns()` (0 for a fresh slot) is recorded into
that thread's stats; a name never registered by any thread takes exactly the
same code path, so the two situations are not distinguished. -/
theorem claim_C4_stop_by_name_never_started (tl : ThreadSlots) (i : ℕ) (now : ℚ)
    (h : (tl i).timer.running = false) :
    TimerRegistry.stopByName tl i now
      = Function.update tl i
          { timer := (tl i).timer, stats := (tl i).stats.record ((tl i).timer.lastLap) } := by
  have hstop : (tl i).timer.stop now = (tl i).timer := by simp [Timer.stop, h]
  rw [TimerRegistry.stopByName]
  simp only [TimerRegistry.stopSlot, hstop]

/-- C4 (witness): `claim_C4_stop_by_name_never_started` applied to a fresh
thread-local array at slot 0. -/
theorem claim_C4_witness :
    (ThreadSlots.fresh 0).timer.running = false
    ∧ TimerRegistry.stopByName ThreadSlots.fresh 0 0
        = Function.update ThreadSlots.fresh 0
            { timer := (ThreadSlots.fresh 0).timer,
              stats := (ThreadSlots.fresh 0).stats.record
                ((ThreadSlots.fresh 0).timer.lastLap) } :=
  ⟨by decide, claim_C4_stop_by_name_never_started ThreadSlots.fresh 0 0 (by decide)⟩

-- ─────────────────────────────────────────────────────────────────────────────
-- Histogram  (src/stats_registry/stats_registry.hxx, lines 83-115, 565-571)
-- ─────────────────────────────────────────────────────────────────────────────

/-- Embedding of `stats_detail::Histogram` (stats_registry.hxx:83-90). -/
@[ext]
structure Histogram where
  low : ℚ
  high : ℚ
  buckets : List ℕ
  underflow : ℕ
  overflow : ℕ
  total : ℕ
  deriving DecidableEq

/-- The `Histogram(low, high, n_buckets)` constructor
(stats_registry.hxx:91). -/
def Histogram.create (low high : ℚ) (nBuckets : ℕ) : Histogram :=
  { low := low, high := high, buckets := List.replicate nBuckets 0,
    underflow := 0, overflow := 0, total := 0 }

/-- Embedding of `Histogram::record` (stats_registry.hxx:93-109).  The C++
`static_cast<std::size_t>` of the non-negative quotient truncates, i.e.
takes the floor. -/
def Histogram.record (h : Histogram) (val : ℚ) : Histogram :=
  let h := { h with total := h.total + 1 }
  if val < h.low then { h with underflow := h.underflow + 1 }
  else if h.high ≤ val then { h with overflow := h.overflow + 1 }
  else
    let width := (h.high - h.low) / (h.buckets.length : ℚ)
    let idx := (⌊(val - h.low) / width⌋).toNat
    let idx := if h.buckets.length ≤ idx then h.buckets.length - 1 else idx
    { h with buckets := h.buckets.set idx (h.buckets.getD idx 0 + 1) }

/-- Embedding of `StatsRegistry::CtHistEntry` (stats_registry.hxx:565-569):
the placeholder histogram `{0.0, 1.0, 1}` and the `created` flag. -/
structure CtHistEntry where
  hist : Histogram
  created : Bool

/-- A default-constructed `CtHistEntry` as it sits in `ct_hist_entries_`
before any `histogram_create` call: placeholder histogram over `[0,1)` with
one bucket, `created = false`. -/
def CtHistEntry.fresh : CtHistEntry :=
  { hist := Histogram.create 0 1 1, created := false }

/-- Embedding of `StatsRegistry::histogram_record<Name>` restricted to the
named entry (stats_registry.hxx:382-387): it locks the entry's mutex and
calls `hist.record(val)` — with no check of `created` whatsoever. -/
def StatsRegistry.histogramRecord (e : CtHistEntry) (val : ℚ) : CtHistEntry :=
  { e with hist := e.hist.record val }

-- ─────────────────────────────────────────────────────────────────────────────
-- Claim C6
-- ─────────────────────────────────────────────────────────────────────────────

/-- C6: recording into a histogram whose `histogram_create` was never called
does not raise anything — `histogram_record` (stats_registry.hxx:382-387)
never consults `created`, contradicting both the spec's misuse-error
contract and the code's own comment (stats_registry.hxx:562-564, "The
placeholder Histogram in the default constructor is never recorded into;
histogram_record<n>() requires created == true").  Evaluated at the failing
input — a fresh entry and value 0.5 — the call completes normally and the
sample is silently absorbed into the placeholder's bucket state: the
placeholder's single bucket over `[0,1)` becomes `[1]`, its total becomes 1
and `created` is still `false`. -/
theorem claim_C6_histogram_record_before_create :
    (StatsRegistry.histogramRecord CtHistEntry.fresh (1/2)).hist.buckets = [1]
    ∧ (StatsRegistry.histogramRecord CtHistEntry.fresh (1/2)).hist.total = 1
    ∧ (StatsRegistry.histogramRecord CtHistEntry.fresh (1/2)).created = false := by
  refine ⟨?_, ?_, rfl⟩ <;>
    norm_num [StatsRegistry.histogramRecord, CtHistEntry.fresh, Histogram.create,
      Histogram.record]

theorem List.getD_replicate_of_lt {α : Type} (a d : α) {n i : ℕ} (h : i < n) :
    (List.replicate n a).getD i d = a := by
  induction n generalizing i with
  | zero => omega
  | succ m ih =>
      cases i with
      | zero => rfl
      | succ j => exact ih (by omega)

/-- In-range recording: for `low ≤ val < high` the incremented bucket is
exactly `⌊(val-low)/width⌋`, and that index is already below the bucket
count, so the clamp in the source never modifies it (in exact arithmetic). -/
theorem Histogram.record_in_range (hg : Histogram) (v : ℚ)
    (hn : 0 < hg.buckets.length) (h1 : hg.low ≤ v) (h2 : v < hg.high) :
    (⌊(v - hg.low) / ((hg.high - hg.low) / (hg.buckets.length : ℚ))⌋).toNat
        < hg.buckets.length
    ∧ hg.record v = { hg with
        total := hg.total + 1
        buckets := hg.buckets.set
          ((⌊(v - hg.low) / ((hg.high - hg.low) / (hg.buckets.length : ℚ))⌋).toNat)
          (hg.buckets.getD
            ((⌊(v - hg.low) / ((hg.high - hg.low) / (hg.buckets.length : ℚ))⌋).toNat) 0
            + 1) } := by
  have hn' : (0 : ℚ) < (hg.buckets.length : ℚ) := by exact_mod_cast hn
  have hw : (0 : ℚ) < (hg.high - hg.low) / (hg.buckets.length : ℚ) :=
    div_pos (by linarith) hn'
  have hx0 : (0 : ℚ) ≤ (v - hg.low) / ((hg.high - hg.low) / (hg.buckets.length : ℚ)) :=
    div_nonneg (by linarith) (le_of_lt hw)
  have hfl0 : 0 ≤ ⌊(v - hg.low) / ((hg.high - hg.low) / (hg.buckets.length : ℚ))⌋ :=
    Int.floor_nonneg.mpr hx0
  have hxn : (v - hg.low) / ((hg.high - hg.low) / (hg.buckets.length : ℚ))
      < (hg.buckets.length : ℚ) := by
    rw [div_lt_iff₀ hw]
    have hmul : (hg.buckets.length : ℚ) * ((hg.high - hg.low) / (hg.buckets.length : ℚ))
        = hg.high - hg.low := by
      field_simp
    rw [hmul]
    linarith
  have hfln : ⌊(v - hg.low) / ((hg.high - hg.low) / (hg.buckets.length : ℚ))⌋
      < (hg.buckets.length : ℤ) := by
    apply Int.floor_lt.mpr
    exact_mod_cast hxn
  have hidx : (⌊(v - hg.low) / ((hg.high - hg.low) / (hg.buckets.length : ℚ))⌋).toNat
      < hg.buckets.length := by omega
  refine ⟨hidx, ?_⟩
  rw [Histogram.record]
  simp only [not_lt.mpr h1, if_neg (not_le.mpr h2), if_neg (not_lt.mpr h1),
    if_neg (Nat.not_le.mpr hidx)]
  simp

-- ─────────────────────────────────────────────────────────────────────────────
-- Claim C7
-- ─────────────────────────────────────────────────────────────────────────────

/-- C7: histogram bucketing.  For a created histogram over `[low, high)`
with at least one equal-width bucket, `record(value)` increments underflow
exactly when `value < low`, increments overflow exactly when
`value >= high` (so `value == high` is overflow), otherwise increments
bucket `⌊(value-low)/bucket_width⌋`, which is always below the bucket count
(the clamp to the last bucket never fires in exact arithmetic); a value of
exactly `low` lands in bucket 0, and in the 10-bucket histogram over
`[0,10)` each value `i + 0.5` for `i < 10` lands in bucket `i`. -/
theorem claim_C7_histogram_bucketing (hg : Histogram) (v : ℚ)
    (hlh : hg.low < hg.high) (hn : 0 < hg.buckets.length) :
    (v < hg.low → hg.record v
        = { hg with total := hg.total + 1, underflow := hg.underflow + 1 })
    ∧ (hg.high ≤ v → hg.record v
        = { hg with total := hg.total + 1, overflow := hg.overflow + 1 })
    ∧ (hg.low ≤ v → v < hg.high →
        (⌊(v - hg.low) / ((hg.high - hg.low) / (hg.buckets.length : ℚ))⌋).toNat
            < hg.buckets.length
        ∧ hg.record v = { hg with
            total := hg.total + 1
            buckets := hg.buckets.set
              ((⌊(v - hg.low) / ((hg.high - hg.low) / (hg.buckets.length : ℚ))⌋).toNat)
              (hg.buckets.getD
                ((⌊(v - hg.low) / ((hg.high - hg.low) / (hg.buckets.length : ℚ))⌋).toNat)
                0 + 1) })
    ∧ hg.record hg.low
        = { hg with
            total := hg.total + 1
            buckets := hg.buckets.set 0 (hg.buckets.getD 0 0 + 1) }
    ∧ (∀ i : ℕ, i < 10 →
        ((Histogram.create 0 10 10).record ((i : ℚ) + 1/2)).buckets
          = (List.replicate 10 0).set i 1) := by
  refine ⟨?_, ?_, ?_, ?_, ?_⟩
  · intro hv
    rw [Histogram.record, if_pos hv]
  · intro hv
    have hnot : ¬(v < hg.low) := not_lt.mpr (le_of_lt (lt_of_lt_of_le hlh hv))
    rw [Histogram.record, if_neg hnot, if_pos hv]
  · intro h1 h2
    exact Histogram.record_in_range hg v hn h1 h2
  · have h := (Histogram.record_in_range hg hg.low hn (le_refl _) hlh).2
    have hzero : (⌊(hg.low - hg.low) / ((hg.high - hg.low) / (hg.buckets.length : ℚ))⌋).toNat
        = 0 := by
      simp
    rw [h, hzero]
  · intro i hi
    have hle : ((Histogram.create 0 10 10).low : ℚ) ≤ (i : ℚ) + 1/2 := by
      simp only [Histogram.create]
      positivity
    have hlt : ((i : ℚ) + 1/2) < (Histogram.create 0 10 10).high := by
      simp only [Histogram.create]
      have : (i : ℚ) ≤ 9 := by exact_mod_cast Nat.lt_succ_iff.mp hi
      linarith
    have hn10 : 0 < (Histogram.create 0 10 10).buckets.length := by
      simp [Histogram.create]
    have h := (Histogram.record_in_range (Histogram.create 0 10 10) ((i : ℚ) + 1/2)
      hn10 hle hlt).2
    have hidx : (⌊(((i : ℚ) + 1/2) - (Histogram.create 0 10 10).low)
        / (((Histogram.create 0 10 10).high - (Histogram.create 0 10 10).low)
          / ((Histogram.create 0 10 10).buckets.length : ℚ))⌋).toNat = i := by
      have harg : (((i : ℚ) + 1/2) - (Histogram.create 0 10 10).low)
          / (((Histogram.create 0 10 10).high - (Histogram.create 0 10 10).low)
            / ((Histogram.create 0 10 10).buckets.length : ℚ)) = (i : ℚ) + 1/2 := by
        simp only [Histogram.create, List.length_replicate]
        norm_num
      rw [harg]
      have hfloor : ⌊(i : ℚ) + 1/2⌋ = (i : ℤ) := by
        rw [show ((i : ℚ) + 1/2) = ((i : ℤ) : ℚ) + 1/2 by push_cast; ring]
        rw [Int.floor_int_add]
        have : ⌊(1/2 : ℚ)⌋ = 0 := by
          apply Int.floor_eq_zero_iff.mpr
          constructor <;> norm_num
        omega
      omega
    rw [h, hidx]
    simp only [Histogram.create]
    rw [List.getD_replicate_of_lt 0 0 hi]

/-- C7 (witness): `claim_C7_histogram_bucketing` applied to the 5-bucket
histogram over `[0,10)` at value 10, which is counted as overflow. -/
theorem claim_C7_witness :
    (Histogram.create 0 10 5).low < (Histogram.create 0 10 5).high
    ∧ 0 < (Histogram.create 0 10 5).buckets.length
    ∧ (Histogram.create 0 10 5).record 10
        = { (Histogram.create 0 10 5) with
            total := (Histogram.create 0 10 5).total + 1
            overflow := (Histogram.create 0 10 5).overflow + 1 } :=
  ⟨by norm_num [Histogram.create], by simp [Histogram.create],
   (claim_C7_histogram_bucketing (Histogram.create 0 10 5) 10
      (by norm_num [Histogram.create]) (by simp [Histogram.create])).2.1
     (by norm_num [Histogram.create])⟩

-- ─────────────────────────────────────────────────────────────────────────────
-- Counters  (src/stats_registry/stats_registry.hxx, lines 191-255, 500-512)
-- ─────────────────────────────────────────────────────────────────────────────

/-- Counter-related state of a `StatsRegistry`: the `ct_counters_` array of
atomic integers and the `ct_counter_active_` flags (stats_registry.hxx:550-551),
as functions from stat ids. -/
structure CounterReg where
  counters : ℕ → ℤ
  counterActive : ℕ → Bool

/-- A freshly constructed registry: counters zeroed, nothing active. -/
def CounterReg.init : CounterReg :=
  { counters := fun _ => 0, counterActive := fun _ => false }

/-- Embedding of `ct_ensure_counter_name<Name>` (stats_registry.hxx:500-512):
marks the slot active (the name-table write carries no further observable
state here). -/
def CounterReg.ensure (r : CounterReg) (i : ℕ) : CounterReg :=
  { r with counterActive := Function.update r.counterActive i true }

/-- Embedding of `counter_inc<Name>` (stats_registry.hxx:192-196):
`fetch_add(delta)` then `ct_ensure_counter_name`. -/
def CounterReg.inc (r : CounterReg) (i : ℕ) (delta : ℤ) : CounterReg :=
  ({ r with counters := Function.update r.counters i (r.counters i + delta) }).ensure i

/-- Embedding of `counter_dec<Name>` (stats_registry.hxx:199-203):
`fetch_sub(delta)` then `ct_ensure_counter_name`. -/
def CounterReg.dec (r : CounterReg) (i : ℕ) (delta : ℤ) : CounterReg :=
  ({ r with counters := Function.update r.counters i (r.counters i - delta) }).ensure i

/-- Embedding of `counter_set<Name>` (stats_registry.hxx:206-209): a plain
atomic store; it does NOT call `ct_ensure_counter_name`. -/
def CounterReg.set (r : CounterReg) (i : ℕ) (v : ℤ) : CounterReg :=
  { r with counters := Function.update r.counters i v }

/-- Embedding of `counter_get<Name>` (stats_registry.hxx:212-215). -/
def CounterReg.get (r : CounterReg) (i : ℕ) : ℤ := r.counters i

/-- Embedding of `counter_ref<Name>` (stats_registry.hxx:226-230): calls
`ct_ensure_counter_name` and hands out the cell's address (the address
itself has no state effect beyond the activation). -/
def CounterReg.ref (r : CounterReg) (i : ℕ) : CounterReg := r.ensure i

/-- Embedding of `counter_reset<Name>` (stats_registry.hxx:233-236): a plain
atomic store of 0; it does NOT call `ct_ensure_counter_name`. -/
def CounterReg.resetCounter (r : CounterReg) (i : ℕ) : CounterReg :=
  { r with counters := Function.update r.counters i 0 }

/-- Embedding of `get_counter_report` (stats_registry.hxx:245-255): one row
per active slot of the `MAX_CT_STATS = 128` array, carrying the slot (whose
stored name the row's `name` field is) and the loaded value. -/
def CounterReg.report (r : CounterReg) : List (ℕ × ℤ) :=
  (List.range 128).filterMap fun i =>
    if r.counterActive i then some (i, r.counters i) else none

/-- Counter operations, for quantifying over call sequences. -/
inductive COp : Type
  | inc (i : ℕ) (delta : ℤ)
  | dec (i : ℕ) (delta : ℤ)
  | set (i : ℕ) (v : ℤ)
  | resetCounter (i : ℕ)
  | ref (i : ℕ)
  deriving DecidableEq

/-- Interpretation of one counter operation. -/
def COp.apply (r : CounterReg) : COp → CounterReg
  | COp.inc i d => r.inc i d
  | COp.dec i d => r.dec i d
  | COp.set i v => r.set i v
  | COp.resetCounter i => r.resetCounter i
  | COp.ref i => r.ref i

/-- Interpretation of a sequence of counter operations. -/
def CounterReg.run (r : CounterReg) (ops : List COp) : CounterReg :=
  ops.foldl COp.apply r

/-- An operation that only stores (`counter_set` or `counter_reset`). -/
def COp.isStoreOnly : COp → Prop
  | COp.set _ _ => True
  | COp.resetCounter _ => True
  | _ => False

instance : DecidablePred COp.isStoreOnly := by
  intro op
  cases op <;> simp [COp.isStoreOnly] <;> infer_instance

theorem CounterReg.run_storeOnly_active (ops : List COp) :
    ∀ r : CounterReg, (∀ op ∈ ops, op.isStoreOnly) →
      (r.run ops).counterActive = r.counterActive := by
  induction ops with
  | nil => intro r _; rfl
  | cons op rest ih =>
      intro r h
      have hop : op.isStoreOnly := h op (List.mem_cons_self op rest)
      have hrest : ∀ o ∈ rest, o.isStoreOnly := fun o ho => h o (List.mem_cons_of_mem op ho)
      have hstep : (COp.apply r op).counterActive = r.counterActive := by
        cases op with
        | set i v => rfl
        | resetCounter i => rfl
        | inc i d => exact absurd hop (by simp [COp.isStoreOnly])
        | dec i d => exact absurd hop (by simp [COp.isStoreOnly])
        | ref i => exact absurd hop (by simp [COp.isStoreOnly])
      calc (r.run (op :: rest)).counterActive
          = ((COp.apply r op).run rest).counterActive := rfl
        _ = (COp.apply r op).counterActive := ih (COp.apply r op) hrest
        _ = r.counterActive := hstep

-- ─────────────────────────────────────────────────────────────────────────────
-- Claim C10
-- ─────────────────────────────────────────────────────────────────────────────

/-- C10: a counter touched only by `counter_set` and `counter_reset` is
never marked active, so it never appears in `get_counter_report` (the report
of any such operation sequence from a fresh registry is empty), even though
`counter_get` returns the stored value; `counter_inc`, `counter_dec` and
`counter_ref` do activate the name for reporting. -/
theorem claim_C10_counter_set_does_not_activate (ops : List COp)
    (h : ∀ op ∈ ops, op.isStoreOnly) :
    (CounterReg.init.run ops).counterActive = CounterReg.init.counterActive
    ∧ (CounterReg.init.run ops).report = []
    ∧ (∀ (r : CounterReg) (i : ℕ) (v : ℤ), (r.set i v).get i = v)
    ∧ (∀ (r : CounterReg) (i : ℕ) (d : ℤ), (r.inc i d).counterActive i = true)
    ∧ (∀ (r : CounterReg) (i : ℕ) (d : ℤ), (r.dec i d).counterActive i = true)
    ∧ (∀ (r : CounterReg) (i : ℕ), (r.ref i).counterActive i = true) := by
  have hact := CounterReg.run_storeOnly_active ops CounterReg.init h
  refine ⟨hact, ?_, ?_, ?_, ?_, ?_⟩
  · rw [CounterReg.report, List.filterMap_eq_nil_iff]
    intro i _
    rw [hact]
    rfl
  · intro r i v
    simp [CounterReg.set, CounterReg.get]
  · intro r i d
    simp [CounterReg.inc, CounterReg.ensure]
  · intro r i d
    simp [CounterReg.dec, CounterReg.ensure]
  · intro r i
    simp [CounterReg.ref, CounterReg.ensure]

/-- C10 (witness): a set and a reset from a fresh registry leave the report
empty while the stored value is readable, and an increment activates. -/
theorem claim_C10_witness :
    (∀ op ∈ [COp.set 3 7, COp.resetCounter 2], op.isStoreOnly)
    ∧ (CounterReg.init.run [COp.set 3 7, COp.resetCounter 2]).report = []
    ∧ (CounterReg.init.set 3 7).get 3 = 7
    ∧ (CounterReg.init.inc 0 1).counterActive 0 = true := by
  have h := claim_C10_counter_set_does_not_activate
    [COp.set 3 7, COp.resetCounter 2] (by decide)
  exact ⟨by decide, h.2.1, h.2.2.1 CounterReg.init 3 7, h.2.2.2.1 CounterReg.init 0 1⟩

-- ─────────────────────────────────────────────────────────────────────────────
-- Name-to-slot id assignment  (timer.hxx:320-328, 727-728;
-- stats_registry.hxx:175-183, 584-585)
-- ─────────────────────────────────────────────────────────────────────────────

/-- Sequential id assignment from a static atomic counter, as performed by
`TimerRegistry::assign_id` / `StatsRegistry::assign_stat_id`: the hashes in
`order` are the static-initialisation sequence of `CtSlotID<H>::value` /
`CtStatID<H>::value` instantiations (each distinct hash initialised exactly
once); `assignFrom seen next order q` walks that sequence handing out
`next, next+1, ...` to hashes not yet seen, and returns the id handed to
`q`. -/
def assignFrom (seen : List ℕ) (next : ℕ) : List ℕ → ℕ → Option ℕ
  | [], _ => none
  | h :: rest, q =>
    if h ∈ seen then assignFrom seen next rest q
    else if h = q then some next
    else assignFrom (h :: seen) (next + 1) rest q

/-- The id that the static counter of `TimerRegistry::assign_id` gives to
hash `q` when the timer-side template instantiations initialise in the order
`timerOrder` (timer.hxx:727-728). -/
def CtSlotIDval (timerOrder : List ℕ) (q : ℕ) : Option ℕ := assignFrom [] 0 timerOrder q

/-- The id that the independent static counter of
`StatsRegistry::assign_stat_id` gives to hash `q` when the stats-side
template instantiations initialise in the order `statOrder`
(stats_registry.hxx:584-585). -/
def CtStatIDval (statOrder : List ℕ) (q : ℕ) : Option ℕ := assignFrom [] 0 statOrder q

/-- Resolver used by the counter operations: `ct_stat_id<Name>`
(stats_registry.hxx:491-494). -/
def counterStatId : List ℕ → ℕ → Option ℕ := CtStatIDval

/-- Resolver used by the gauge operations: the same `ct_stat_id<Name>`. -/
def gaugeStatId : List ℕ → ℕ → Option ℕ := CtStatIDval

/-- Resolver used by the histogram operations: the same `ct_stat_id<Name>`. -/
def histStatId : List ℕ → ℕ → Option ℕ := CtStatIDval

theorem assignFrom_append (order : List ℕ) :
    ∀ (seen : List ℕ) (next : ℕ) (more : List ℕ) (q : ℕ),
      q ∈ order → q ∉ seen →
      assignFrom seen next (order ++ more) q = assignFrom seen next order q := by
  induction order with
  | nil => intro seen next more q hq _; exact absurd hq (List.not_mem_nil q)
  | cons h rest ih =>
      intro seen next more q hq hs
      rw [List.cons_append, assignFrom, assignFrom]
      by_cases hseen : h ∈ seen
      · rw [if_pos hseen, if_pos hseen]
        have hne : h ≠ q := fun he => hs (he ▸ hseen)
        have hq' : q ∈ rest := by
          rcases List.mem_cons.mp hq with rfl | hmem
          · exact absurd hseen hs
          · exact hmem
        exact ih seen next more q hq' hs
      · rw [if_neg hseen, if_neg hseen]
        by_cases heq : h = q
        · rw [if_pos heq, if_pos heq]
        · rw [if_neg heq, if_neg heq]
          have hq' : q ∈ rest := by
            rcases List.mem_cons.mp hq with rfl | hmem
            · exact absurd rfl heq
            · exact hmem
          have hs' : q ∉ h :: seen := by
            intro hmem
            rcases List.mem_cons.mp hmem with rfl | hmem'
            · exact heq rfl
            · exact hs hmem'
          exact ih (h :: seen) (next + 1) more q hq' hs'

-- ─────────────────────────────────────────────────────────────────────────────
-- Claim C8
-- ─────────────────────────────────────────────────────────────────────────────

/-- C8 (counterexample): the timer id space and the stats id space are NOT
shared.  `CtSlotID<H>::value` draws from `TimerRegistry::assign_id`'s static
counter while `CtStatID<H>::value` draws from `StatsRegistry::assign_stat_id`'s
independent static counter, and the two families also index disjoint storage
(`ct_slots` versus `ct_counters_`/`ct_gauges_`/`ct_hist_entries_`).  In a
program whose timer-side instantiations initialise as hash 7 then hash 5
while the stats side only ever instantiates hash 5, the same name-hash 5
resolves to timer slot id 1 but stat id 0 — refuting the claim that a name
used as a timer and in another accumulator category receives one shared
slot id. -/
theorem claim_C8_counterexample :
    CtSlotIDval [7, 5] 5 = some 1 ∧ CtStatIDval [5] 5 = some 0
    ∧ CtSlotIDval [7, 5] 5 ≠ CtStatIDval [5] 5 := by
  refine ⟨?_, ?_, ?_⟩ <;> decide

/-- C8 (amended): id resolution is deterministic and stable — once a name
hash has been resolved, later instantiations never change its id (the
mapping is monotonic and never reassigned), separately within the timer id
space and within the stats id space; and the counter, gauge and histogram
categories share one id space, all resolving through `ct_stat_id`
(`CtStatID<H>::value`).  Timers resolve through the independent
`CtSlotID<H>::value` space (see the counterexample). -/
theorem claim_C8_slot_id_stability (q : ℕ) :
    (∀ statOrder more, q ∈ statOrder →
      CtStatIDval (statOrder ++ more) q = CtStatIDval statOrder q)
    ∧ (∀ timerOrder more, q ∈ timerOrder →
      CtSlotIDval (timerOrder ++ more) q = CtSlotIDval timerOrder q)
    ∧ counterStatId = CtStatIDval
    ∧ gaugeStatId = CtStatIDval
    ∧ histStatId = CtStatIDval := by
  refine ⟨?_, ?_, rfl, rfl, rfl⟩
  · intro statOrder more hq
    exact assignFrom_append statOrder [] 0 more q hq (List.not_mem_nil q)
  · intro timerOrder more hq
    exact assignFrom_append timerOrder [] 0 more q hq (List.not_mem_nil q)

/-- C8 (witness): stability of both id spaces at hash 5 under further
instantiations. -/
theorem claim_C8_witness :
    (5 ∈ [5] ∧ CtStatIDval ([5] ++ [11]) 5 = CtStatIDval [5] 5)
    ∧ (5 ∈ [7, 5] ∧ CtSlotIDval ([7, 5] ++ [11]) 5 = CtSlotIDval [7, 5] 5) :=
  ⟨⟨by decide, (claim_C8_slot_id_stability 5).1 [5] [11] (by decide)⟩,
   ⟨by decide, (claim_C8_slot_id_stability 5).2.1 [7, 5] [11] (by decide)⟩⟩

-- ─────────────────────────────────────────────────────────────────────────────
-- Claim C9
-- ─────────────────────────────────────────────────────────────────────────────

/-- C9 (counterexample): the identity `stddev(s)² * count(s) = M2(s)` does
not hold for every `TimerStats` value.  `TimerStats` is a plain aggregate
whose fields the registry itself assigns directly (timer.hxx:480-488), so
`{count = 1, M2 = 1}` is a constructible value; on it `variance()` is
defined to be 0 for `count < 2`, hence `stddev`² × count = 0 ≠ 1 = M2. -/
theorem claim_C9_counterexample :
    ¬ (Real.sqrt ((TimerStats.mk 1 0 ⊤ ⊥ 0 1).variance : ℝ) ^ 2
          * ((TimerStats.mk 1 0 ⊤ ⊥ 0 1).count : ℝ)
        = ((TimerStats.mk 1 0 ⊤ ⊥ 0 1).M2 : ℝ)) := by
  intro h
  rw [show (TimerStats.mk 1 0 ⊤ ⊥ 0 1).variance = 0 from rfl] at h
  norm_num [Real.sqrt_zero] at h

/-- C9 (amended): for every `TimerStats` that can actually arise from
`record`/`merge` sequences — equivalently, whenever `M2 ≥ 0` and `M2 = 0`
if `count < 2` — `stddev² × count` recovers `M2` exactly in real
arithmetic; consequently any rational `M2` value equal to that
reconstruction (as the merged report computes from a thread-graveyard
snapshot's stored stddev and count) yields exactly the exited thread's
accumulator, and merging the reconstructed snapshot gives the same result
as merging the original stats, on either side of the merge. -/
theorem claim_C9_m2_reconstruction (s : TimerStats)
    (h1 : 0 ≤ s.M2) (h2 : s.count < 2 → s.M2 = 0) :
    Real.sqrt (s.variance : ℝ) ^ 2 * (s.count : ℝ) = (s.M2 : ℝ)
    ∧ ∀ m : ℚ, (m : ℝ) = Real.sqrt (s.variance : ℝ) ^ 2 * (s.count : ℝ) →
        ({ s with M2 := m } = s
         ∧ ∀ t : TimerStats,
            t.merge { s with M2 := m } = t.merge s
            ∧ ({ s with M2 := m }).merge t = s.merge t) := by
  have key : Real.sqrt (s.variance : ℝ) ^ 2 * (s.count : ℝ) = (s.M2 : ℝ) := by
    by_cases hc : s.count < 2
    · rw [TimerStats.variance, if_pos hc, h2 hc]
      norm_num [Real.sqrt_zero]
    · have hcount : (0 : ℚ) < (s.count : ℚ) := by
        have : 0 < s.count := by omega
        exact_mod_cast this
      have hvar : (0 : ℝ) ≤ (s.variance : ℝ) := by
        rw [TimerStats.variance, if_neg hc]
        have : (0 : ℚ) ≤ s.M2 / (s.count : ℚ) := div_nonneg h1 (le_of_lt hcount)
        exact_mod_cast this
      rw [Real.sq_sqrt hvar, TimerStats.variance, if_neg hc]
      have hc' : ((s.count : ℚ) : ℝ) ≠ 0 := by
        exact_mod_cast ne_of_gt hcount
      push_cast
      push_cast at hc'
      field_simp
  refine ⟨key, ?_⟩
  intro m hm
  have hmq : m = s.M2 := by
    have : (m : ℝ) = (s.M2 : ℝ) := hm.trans key
    exact_mod_cast this
  subst hmq
  exact ⟨rfl, fun t => ⟨rfl, rfl⟩⟩

/-- C9 (witness): `claim_C9_m2_reconstruction` at the accumulator obtained
from samples 2 and 4 (count 2, total 6, mean 3, M2 = 2). -/
theorem claim_C9_witness :
    (0 ≤ (TimerStats.mk 2 6 2 4 3 2).M2
      ∧ ((TimerStats.mk 2 6 2 4 3 2).count < 2 → (TimerStats.mk 2 6 2 4 3 2).M2 = 0))
    ∧ Real.sqrt ((TimerStats.mk 2 6 2 4 3 2).variance : ℝ) ^ 2
        * ((TimerStats.mk 2 6 2 4 3 2).count : ℝ) = ((TimerStats.mk 2 6 2 4 3 2).M2 : ℝ) :=
  ⟨⟨by norm_num, fun h => absurd h (by norm_num)⟩,
   (claim_C9_m2_reconstruction (TimerStats.mk 2 6 2 4 3 2) (by norm_num)
      (fun h => absurd h (by norm_num))).1⟩

-- ─────────────────────────────────────────────────────────────────────────────
-- TimerRegistry lifecycle state  (timer.hxx:300-716)
--
-- The registry model keeps exactly the state that `get_stats_report` reads:
-- `live_threads_` (with each thread's `ct_slots` stats and `ct_active`
-- flags), `graveyard_`, `thread_graveyard_` and `known_names_order_`.
-- Metric names are identified with their (injectively assigned) slot ids;
-- report durations use the nanosecond unit, for which `ns_to` is the
-- identity.  `std::sqrt` is abstracted by a parameter `sq : ℚ → ℚ` — it is
-- only applied where the C++ code applies `std::sqrt`, and no claim below
-- depends on its values.  Timer fields of a `Slot` are omitted: the report,
-- the thread-exit destructor and the graveyards read only `Slot::stats`,
-- and a "record" event stands for a completed start/stop pair delivering
-- one sample.
-- ─────────────────────────────────────────────────────────────────────────────

/-- Per-thread state: the stats of `ct_slots` plus `ct_active`
(timer.hxx:587-592). -/
structure ThreadTable where
  slots : ℕ → TimerStats
  active : ℕ → Bool

/-- A freshly constructed `thread_local ThreadLocal` (timer.hxx:642-645). -/
def ThreadTable.fresh : ThreadTable :=
  { slots := fun _ => TimerStats.empty, active := fun _ => false }

/-- Embedding of `ThreadStatsRow` (timer.hxx:451-461) as written into
`thread_graveyard_` at thread exit (timer.hxx:608): the name (slot id),
thread id, and the snapshot fields — note `M2` is NOT stored, only the
stddev values. -/
structure GraveRow where
  name : ℕ
  tid : ℕ
  callCount : ℕ
  total : ℚ
  mean : ℚ
  min : WithTop ℚ
  max : WithBot ℚ
  stddev : ℚ
  sampleStddev : ℚ

/-- Registry state read and written by the lifecycle paths
(timer.hxx:706-711). -/
structure RegState where
  live : List (ℕ × ThreadTable)
  graveyard : ℕ → TimerStats
  threadGraveyard : List GraveRow
  knownNames : List ℕ

/-- A freshly constructed `TimerRegistry`. -/
def RegState.init : RegState :=
  { live := [], graveyard := fun _ => TimerStats.empty,
    threadGraveyard := [], knownNames := [] }

/-- Association-list lookup in `live_threads_` (keys are unique in any
reachable state, so multiset semantics coincide with `unordered_map`). -/
def findLive : List (ℕ × ThreadTable) → ℕ → Option ThreadTable
  | [], _ => none
  | (t, x) :: rest, tid => if t = tid then some x else findLive rest tid

/-- Insert-or-replace in `live_threads_`. -/
def updateLive : List (ℕ × ThreadTable) → ℕ → ThreadTable → List (ℕ × ThreadTable)
  | [], tid, tb => [(tid, tb)]
  | (t, x) :: rest, tid, tb =>
    if t = tid then (t, tb) :: rest else (t, x) :: updateLive rest tid tb

/-- Erase from `live_threads_`. -/
def removeLive : List (ℕ × ThreadTable) → ℕ → List (ℕ × ThreadTable)
  | [], _ => []
  | (t, x) :: rest, tid =>
    if t = tid then removeLive rest tid else (t, x) :: removeLive rest tid

/-- Lifecycle events.  `rec tid slot v` is a completed start/stop pair by
thread `tid` on `slot` whose lap measured `v` (registering thread, name and
active flag on first use, per `ct_get_or_create_slot`, then folding the lap
into the slot's stats per `stop(Slot*)`); `exit tid` is the thread's
`ThreadLocal` destructor; `reset slot` is `TimerRegistry::reset<Name>`. -/
inductive REvent : Type
  | record (tid : ℕ) (slot : ℕ) (v : ℚ)
  | exit (tid : ℕ)
  | reset (slot : ℕ)

/-- Embedding of a completed `start<Name>()` / `stop(Slot*)` pair
(timer.hxx:353-368 and 616-638): ensure the name is known, ensure the
thread is registered live, mark the slot active, and record the lap. -/
def RegState.applyRec (st : RegState) (tid slot : ℕ) (v : ℚ) : RegState :=
  let tb := (findLive st.live tid).getD ThreadTable.fresh
  let tb' : ThreadTable :=
    { slots := Function.update tb.slots slot ((tb.slots slot).record v)
      active := Function.update tb.active slot true }
  { st with
      live := updateLive st.live tid tb'
      knownNames :=
        if slot ∈ st.knownNames then st.knownNames else st.knownNames ++ [slot] }

/-- The snapshot row written by `~ThreadLocal` for one qualifying slot
(timer.hxx:607-608). -/
def snapshotRow (sq : ℚ → ℚ) (tid slot : ℕ) (s : TimerStats) : GraveRow :=
  { name := slot, tid := tid, callCount := s.count, total := s.total,
    mean := s.mean, min := s.min, max := s.max,
    stddev := sq s.variance, sampleStddev := sq s.sampleVariance }

/-- Embedding of `TimerRegistry::ThreadLocal::~ThreadLocal`
(timer.hxx:596-611): for every active slot with `count > 0`, merge its
stats into `graveyard_[name]` and append a snapshot row to
`thread_graveyard_`; then erase the thread from `live_threads_`.  A thread
not in the directory has a null `registry` pointer and does nothing. -/
def RegState.applyExit (sq : ℚ → ℚ) (st : RegState) (tid : ℕ) : RegState :=
  match findLive st.live tid with
  | none => st
  | some tb =>
      let qual := (List.range 128).filter
        fun i => tb.active i && decide ((tb.slots i).count ≠ 0)
      { st with
          live := removeLive st.live tid
          graveyard := qual.foldl
            (fun g i => Function.update g i ((g i).merge (tb.slots i))) st.graveyard
          threadGraveyard :=
            st.threadGraveyard ++ qual.map fun i => snapshotRow sq tid i (tb.slots i) }

/-- Embedding of `TimerRegistry::reset<Name>` (timer.hxx:416-433): zero the
slot in every live thread that has it active, zero the per-name graveyard
aggregate, and drop that name's thread-graveyard snapshots; the name stays
known. -/
def RegState.applyReset (st : RegState) (slot : ℕ) : RegState :=
  { st with
      live := st.live.map fun p =>
        (p.1, if p.2.active slot
          then { p.2 with slots := Function.update p.2.slots slot TimerStats.empty }
          else p.2)
      graveyard := Function.update st.graveyard slot TimerStats.empty
      threadGraveyard := st.threadGraveyard.filter fun r => decide (r.name ≠ slot) }

/-- One step of the lifecycle. -/
def REvent.apply (sq : ℚ → ℚ) (st : RegState) : REvent → RegState
  | REvent.record tid slot v => st.applyRec tid slot v
  | REvent.exit tid => RegState.applyExit sq st tid
  | REvent.reset slot => st.applyReset slot

/-- Interpretation of an event sequence. -/
def RegState.run (sq : ℚ → ℚ) (st : RegState) (evs : List REvent) : RegState :=
  evs.foldl (REvent.apply sq) st

/-- Whether an event touches the metric named `slot` (records into it or
resets it). -/
def REvent.touches (slot : ℕ) : REvent → Prop
  | REvent.record _ s _ => s = slot
  | REvent.exit _ => False
  | REvent.reset s => s = slot

-- ── Report generation (timer.hxx:438-448, 469-520) ──────────────────────

/-- Unit-scaled accessors `get_mean` / `get_min` / `get_max`
(timer.hxx:223-234) for the nanosecond unit. -/
def TimerStats.getMean (s : TimerStats) : ℚ := if s.count = 0 then 0 else s.mean

/-- The `get_min` accessor; for `count ≠ 0` the stored `min` is a genuine
sample value, never the `⊤` sentinel, in every state the registry produces. -/
def TimerStats.getMin (s : TimerStats) : ℚ :=
  if s.count = 0 then 0 else s.min.untop' 0

/-- The `get_max` accessor. -/
def TimerStats.getMax (s : TimerStats) : ℚ :=
  if s.count = 0 then 0 else s.max.unbot' 0

/-- Embedding of `StatsRow` (timer.hxx:438-448), names as slot ids. -/
structure StatsRow where
  name : ℕ
  threadCount : ℕ
  callCount : ℕ
  total : ℚ
  mean : ℚ
  min : ℚ
  max : ℚ
  stddev : ℚ
  sampleStddev : ℚ

/-- Reconstruction of a snapshot's accumulator inside `get_stats_report`
(timer.hxx:481-488): copy count/total/mean/min/max and rebuild
`M2 = stddev² × count`. -/
def GraveRow.reconstruct (row : GraveRow) : TimerStats :=
  { count := row.callCount, total := row.total, min := row.min, max := row.max,
    mean := row.mean, M2 := row.stddev * row.stddev * (row.callCount : ℚ) }

/-- The merged accumulator and contributing-thread count that
`get_stats_report` computes for one name (timer.hxx:474-502): first all
matching thread-graveyard snapshots, then every live thread's active,
non-empty stats for that slot. -/
def RegState.mergedFor (st : RegState) (name : ℕ) : TimerStats × ℕ :=
  let rows := st.threadGraveyard.filter fun r => decide (r.name = name)
  let afterGrave := rows.foldl (fun acc r => acc.merge r.reconstruct) TimerStats.empty
  let liveStats := st.live.filterMap fun p =>
    if p.2.active name && decide ((p.2.slots name).count ≠ 0)
    then some (p.2.slots name) else none
  (liveStats.foldl TimerStats.merge afterGrave, rows.length + liveStats.length)

/-- Embedding of `TimerRegistry::get_stats_report` for the nanosecond unit
(timer.hxx:469-520): one row per known name with a non-empty merged
accumulator, in first-use order. -/
def RegState.report (sq : ℚ → ℚ) (st : RegState) : List StatsRow :=
  st.knownNames.filterMap fun name =>
    let m := st.mergedFor name
    if m.1.count = 0 then none
    else some
      { name := name, threadCount := m.2, callCount := m.1.count,
        total := m.1.total, mean := m.1.getMean, min := m.1.getMin,
        max := m.1.getMax, stddev := sq m.1.variance,
        sampleStddev := sq m.1.sampleVariance }

theorem TimerStats.merge_count (s o : TimerStats) :
    (s.merge o).count = s.count + o.count := by
  rw [TimerStats.merge]
  split_ifs with h1 h2
  · omega
  · omega
  · rfl

theorem TimerStats.foldl_merge_count (l : List TimerStats) :
    ∀ init : TimerStats,
      (l.foldl TimerStats.merge init).count = init.count + (l.map TimerStats.count).sum := by
  induction l with
  | nil => intro init; simp
  | cons x xs ih =>
      intro init
      rw [List.foldl_cons, ih, TimerStats.merge_count, List.map_cons, List.sum_cons]
      omega

theorem TimerStats.count_le_foldl_merge (l : List TimerStats) (init : TimerStats)
    (s : TimerStats) (hs : s ∈ l) :
    s.count ≤ (l.foldl TimerStats.merge init).count := by
  rw [TimerStats.foldl_merge_count]
  have hmem : s.count ∈ l.map TimerStats.count := List.mem_map_of_mem _ hs
  have hle := List.single_le_sum (fun x _ => Nat.zero_le x) _ hmem
  omega

theorem findLive_updateLive_self (l : List (ℕ × ThreadTable)) (tid : ℕ) (tb : ThreadTable) :
    findLive (updateLive l tid tb) tid = some tb := by
  induction l with
  | nil => simp [updateLive, findLive]
  | cons p rest ih =>
      obtain ⟨t, x⟩ := p
      rw [updateLive]
      by_cases h : t = tid
      · rw [if_pos h, findLive, if_pos h]
      · rw [if_neg h, findLive, if_neg h, ih]

theorem RegState.run_append (sq : ℚ → ℚ) (st : RegState) (l₁ l₂ : List REvent) :
    st.run sq (l₁ ++ l₂) = (st.run sq l₁).run sq l₂ := by
  simp [RegState.run, List.foldl_append]

theorem RegState.applyExit_knownNames (sq : ℚ → ℚ) (st : RegState) (tid : ℕ) :
    (RegState.applyExit sq st tid).knownNames = st.knownNames := by
  rw [RegState.applyExit]
  cases findLive st.live tid <;> rfl

theorem REvent.apply_knownNames_mono (sq : ℚ → ℚ) (st : RegState) (e : REvent) (t : ℕ)
    (h : t ∈ st.knownNames) : t ∈ (REvent.apply sq st e).knownNames := by
  cases e with
  | record tid slot v =>
      show t ∈ (st.applyRec tid slot v).knownNames
      simp only [RegState.applyRec]
      split_ifs with hmem
      · exact h
      · exact List.mem_append_left _ h
  | exit tid =>
      show t ∈ (RegState.applyExit sq st tid).knownNames
      rw [RegState.applyExit_knownNames]
      exact h
  | reset slot => exact h

theorem RegState.run_knownNames_mono (sq : ℚ → ℚ) (evs : List REvent) :
    ∀ (st : RegState) (t : ℕ), t ∈ st.knownNames → t ∈ (st.run sq evs).knownNames := by
  induction evs with
  | nil => intro st t h; exact h
  | cons e rest ih =>
      intro st t h
      exact ih (REvent.apply sq st e) t (REvent.apply_knownNames_mono sq st e t h)

theorem RegState.applyRec_findLive_self (st : RegState) (tid slot : ℕ) (v : ℚ) :
    findLive (st.applyRec tid slot v).live tid = some
      { slots := Function.update ((findLive st.live tid).getD ThreadTable.fresh).slots slot
          ((((findLive st.live tid).getD ThreadTable.fresh).slots slot).record v)
        active := Function.update
          ((findLive st.live tid).getD ThreadTable.fresh).active slot true } := by
  simp only [RegState.applyRec]
  exact findLive_updateLive_self st.live tid _

theorem RegState.run_records (sq : ℚ → ℚ) (θ t : ℕ) (samples : List ℚ) :
    ∀ st : RegState, samples ≠ [] →
      ∃ tb : ThreadTable,
        findLive (st.run sq (samples.map (REvent.record θ t))).live θ = some tb
        ∧ (tb.slots t).count
            = (((findLive st.live θ).getD ThreadTable.fresh).slots t).count + samples.length
        ∧ tb.active t = true
        ∧ t ∈ (st.run sq (samples.map (REvent.record θ t))).knownNames := by
  induction samples with
  | nil => intro st h; exact absurd rfl h
  | cons v rest ih =>
      intro st _
      have hstep : st.run sq ((v :: rest).map (REvent.record θ t))
          = (st.applyRec θ t v).run sq (rest.map (REvent.record θ t)) := rfl
      rcases eq_or_ne rest [] with rfl | hne
      · refine
          ⟨{ slots := Function.update
                ((findLive st.live θ).getD ThreadTable.fresh).slots t
                ((((findLive st.live θ).getD ThreadTable.fresh).slots t).record v)
             active := Function.update
                ((findLive st.live θ).getD ThreadTable.fresh).active t true },
           ?_, ?_, ?_, ?_⟩
        · rw [hstep]
          exact RegState.applyRec_findLive_self st θ t v
        · simp [Function.update_same, TimerStats.record]
        · simp [Function.update_same]
        · rw [hstep]
          show t ∈ (st.applyRec θ t v).knownNames
          simp only [RegState.applyRec]
          split_ifs with hmem
          · exact hmem
          · exact List.mem_append_right _ (List.mem_singleton_self t)
      · obtain ⟨tb, hfind, hcount, hact, hknown⟩ := ih (st.applyRec θ t v) hne
        refine ⟨tb, by rw [hstep]; exact hfind, ?_, hact, by rw [hstep]; exact hknown⟩
        rw [hcount, RegState.applyRec_findLive_self st θ t v]
        simp only [Option.getD_some, Function.update_same]
        rw [TimerStats.record]
        simp only [List.length_cons]
        omega

theorem RegState.applyExit_row (sq : ℚ → ℚ) (st : RegState) (θ t : ℕ) (tb : ThreadTable)
    (hfind : findLive st.live θ = some tb) (ht : t < 128)
    (hact : tb.active t = true) (hcnt : (tb.slots t).count ≠ 0) :
    snapshotRow sq θ t (tb.slots t) ∈ (RegState.applyExit sq st θ).threadGraveyard := by
  rw [RegState.applyExit, hfind]
  apply List.mem_append_right
  apply List.mem_map_of_mem
  apply List.mem_filter.mpr
  refine ⟨List.mem_range.mpr ht, ?_⟩
  simp [hact, hcnt]

theorem REvent.apply_grave_mono (sq : ℚ → ℚ) (st : RegState) (e : REvent) (t : ℕ)
    (r : GraveRow) (hname : r.name = t) (hnt : ¬ e.touches t)
    (hr : r ∈ st.threadGraveyard) :
    r ∈ (REvent.apply sq st e).threadGraveyard := by
  cases e with
  | record tid slot v => exact hr
  | exit tid =>
      show r ∈ (RegState.applyExit sq st tid).threadGraveyard
      rw [RegState.applyExit]
      cases findLive st.live tid with
      | none => exact hr
      | some tb => exact List.mem_append_left _ hr
  | reset slot =>
      show r ∈ (st.applyReset slot).threadGraveyard
      apply List.mem_filter.mpr
      refine ⟨hr, ?_⟩
      have : r.name ≠ slot := by
        rw [hname]
        intro he
        exact hnt he.symm
      simp [this]

theorem RegState.run_grave_mono (sq : ℚ → ℚ) (evs : List REvent) :
    ∀ (st : RegState) (t : ℕ) (r : GraveRow), r.name = t →
      (∀ e ∈ evs, ¬ e.touches t) → r ∈ st.threadGraveyard →
      r ∈ (st.run sq evs).threadGraveyard := by
  induction evs with
  | nil => intro st t r _ _ hr; exact hr
  | cons e rest ih =>
      intro st t r hname hunt hr
      have he : ¬ e.touches t := hunt e (List.mem_cons_self e rest)
      have hrest : ∀ x ∈ rest, ¬ x.touches t :=
        fun x hx => hunt x (List.mem_cons_of_mem e hx)
      exact ih (REvent.apply sq st e) t r hname hrest
        (REvent.apply_grave_mono sq st e t r hname he hr)

theorem RegState.report_contains (sq : ℚ → ℚ) (st : RegState) (t : ℕ) (r : GraveRow)
    (ht : t ∈ st.knownNames) (hr : r ∈ st.threadGraveyard) (hname : r.name = t)
    (hcnt : r.callCount ≠ 0) :
    ∃ row ∈ st.report sq, row.name = t ∧ r.callCount ≤ row.callCount := by
  have hfil : r ∈ st.threadGraveyard.filter fun x => decide (x.name = t) :=
    List.mem_filter.mpr ⟨hr, by simp [hname]⟩
  have hM : r.callCount ≤ (st.mergedFor t).1.count := by
    simp only [RegState.mergedFor]
    have hrec : (GraveRow.reconstruct r).count
        ≤ ((st.threadGraveyard.filter fun x => decide (x.name = t)).foldl
            (fun acc x => acc.merge x.reconstruct) TimerStats.empty).count := by
      rw [show ((st.threadGraveyard.filter fun x => decide (x.name = t)).foldl
            (fun acc x => acc.merge x.reconstruct) TimerStats.empty)
          = (((st.threadGraveyard.filter fun x => decide (x.name = t)).map
              GraveRow.reconstruct).foldl TimerStats.merge TimerStats.empty) by
        rw [List.foldl_map]]
      exact TimerStats.count_le_foldl_merge _ _ _ (List.mem_map_of_mem _ hfil)
    have hrc : (GraveRow.reconstruct r).count = r.callCount := rfl
    rw [TimerStats.foldl_merge_count]
    omega
  have hne : (st.mergedFor t).1.count ≠ 0 := by omega
  refine
    ⟨{ name := t
       threadCount := (st.mergedFor t).2
       callCount := (st.mergedFor t).1.count
       total := (st.mergedFor t).1.total
       mean := (st.mergedFor t).1.getMean
       min := (st.mergedFor t).1.getMin
       max := (st.mergedFor t).1.getMax
       stddev := sq (st.mergedFor t).1.variance
       sampleStddev := sq (st.mergedFor t).1.sampleVariance }, ?_, rfl, hM⟩
  rw [RegState.report]
  apply List.mem_filterMap.mpr
  refine ⟨t, ht, ?_⟩
  simp only [if_neg hne]

-- ─────────────────────────────────────────────────────────────────────────────
-- Claim C2
-- ─────────────────────────────────────────────────────────────────────────────

/-- C2: thread-exit durability.  If, after any prior registry activity
`pre`, a thread records `M ≥ 1` samples for timer name `t` (each a
completed start/stop pair) and then exits, then after any further activity
that does not touch `t` (matching the claim's "no other thread ever uses
t"; recording into other names, other threads exiting, and resets of other
names are all allowed), the merged report contains a row for `t` whose
`call_count` is at least `M`: the exiting thread's samples survive in the
thread graveyard and every merge only adds counts. -/
theorem claim_C2_thread_exit_durability (sq : ℚ → ℚ) (pre post : List REvent)
    (θ t : ℕ) (samples : List ℚ) (ht : t < 128) (hs : samples ≠ [])
    (hpost : ∀ e ∈ post, ¬ e.touches t) :
    ∃ row ∈ RegState.report sq
        (RegState.init.run sq
          (pre ++ samples.map (REvent.record θ t) ++ [REvent.exit θ] ++ post)),
      row.name = t ∧ samples.length ≤ row.callCount := by
  obtain ⟨tb, hfind, hcount, hact, hknown⟩ :=
    RegState.run_records sq θ t samples (RegState.init.run sq pre) hs
  have hdec : RegState.init.run sq
        (pre ++ samples.map (REvent.record θ t) ++ [REvent.exit θ] ++ post)
      = (RegState.applyExit sq
          ((RegState.init.run sq pre).run sq (samples.map (REvent.record θ t))) θ).run
            sq post := by
    rw [RegState.run_append, RegState.run_append, RegState.run_append]
    rfl
  have hcnt0 : (tb.slots t).count ≠ 0 := by
    have := List.length_pos.mpr hs
    omega
  have hrow := RegState.applyExit_row sq
    ((RegState.init.run sq pre).run sq (samples.map (REvent.record θ t)))
    θ t tb hfind ht hact hcnt0
  have hrow2 : snapshotRow sq θ t (tb.slots t)
      ∈ ((RegState.applyExit sq
          ((RegState.init.run sq pre).run sq (samples.map (REvent.record θ t))) θ).run
            sq post).threadGraveyard :=
    RegState.run_grave_mono sq post _ t _ rfl hpost hrow
  have hknown2 : t ∈ ((RegState.applyExit sq
      ((RegState.init.run sq pre).run sq (samples.map (REvent.record θ t))) θ).run
        sq post).knownNames := by
    apply RegState.run_knownNames_mono
    rw [RegState.applyExit_knownNames]
    exact hknown
  obtain ⟨row, hmem, hname, hle⟩ :=
    RegState.report_contains sq _ t (snapshotRow sq θ t (tb.slots t))
      hknown2 hrow2 rfl hcnt0
  refine ⟨row, ?_, hname, ?_⟩
  · rw [hdec]
    exact hmem
  · have hsc : (snapshotRow sq θ t (tb.slots t)).callCount = (tb.slots t).count := rfl
    omega

/-- C2 (witness): one thread records one sample for slot 0 and exits; the
report of the resulting state carries a row for slot 0 with call count at
least 1. -/
theorem claim_C2_witness :
    ((0 : ℕ) < 128 ∧ ([(1 : ℚ)] ≠ []) ∧ (∀ e ∈ ([] : List REvent), ¬ e.touches 0))
    ∧ ∃ row ∈ RegState.report (fun q => q)
        (RegState.init.run (fun q => q)
          ([] ++ [(1 : ℚ)].map (REvent.record 0 0) ++ [REvent.exit 0] ++ [])),
      row.name = 0 ∧ [(1 : ℚ)].length ≤ row.callCount :=
  ⟨⟨by norm_num, by simp, by simp⟩,
   claim_C2_thread_exit_durability (fun q => q) [] [] 0 0 [1]
     (by norm_num) (by simp) (by simp)⟩
